import Mathlib

/-!
# Robust stack combination (sigma clipping with median / MAD), verified

Shallow embedding of the sigma-clipped image-combination procedure of the
"Image combination" notebook:

* `median = np.median(bits, axis=0)`
* `mad_sigma = mad_std(bits, axis=0)`  (median absolute deviation × 1.4826)
* `exclude = (bits - median) / mad_sigma > 10`
* `original_values = bits[exclude]; bits[exclude] = np.nan`
* `clip_combine = np.nanmean(bits, axis=0); bits[exclude] = original_values`

Pixel values are modelled as rationals; the IEEE behaviour of the one float
operation whose special values matter (division by a zero scale, producing
`±∞`/`NaN` inside the comparison) is made explicit in `floatDivGt`, and the
`NaN` produced by `np.nanmean` on an all-`NaN` column is modelled as `none`.
A stack is a list of N images, each image its flattened pixel list, matching
the `(N, npixels)` layout of `bits` in the notebook.
-/

namespace RobustStack

/-- The Gaussian consistency factor by which `astropy.stats.mad_std`
multiplies the median absolute deviation (≈ 1.4826). -/
def madFactor : ℚ := 14826 / 10000

/-- Ascending sort of the samples, as NumPy's median performs internally. -/
def sortSamples (xs : List ℚ) : List ℚ := xs.insertionSort (· ≤ ·)

/-- `np.median` of a list of samples: the middle element of the sorted list
when the length is odd, the average of the two middle elements when it is
even.  (NumPy yields NaN on an empty input; no claim exercises that case.) -/
def npMedian (xs : List ℚ) : ℚ :=
  let s := sortSamples xs
  let n := xs.length
  if n % 2 = 1 then s.getD (n / 2) 0
  else (s.getD (n / 2 - 1) 0 + s.getD (n / 2) 0) / 2

/-- `astropy.stats.mad_std` along the stacking axis: the median absolute
deviation from the median, scaled by the Gaussian consistency factor. -/
def mad_std (xs : List ℚ) : ℚ :=
  npMedian (xs.map fun x => |x - npMedian xs|) * madFactor

/-- The NumPy floating comparison `num / den > thr` for a nonnegative
denominator, with IEEE division by zero made explicit: `num / 0` is `+∞` for
positive `num` (greater than every finite threshold), `-∞` for negative
`num`, and `NaN` for `num = 0`; neither `-∞ > thr` nor `NaN > thr` holds. -/
def floatDivGt (num den thr : ℚ) : Bool :=
  if den = 0 then decide (0 < num) else decide (thr < num / den)

/-- The notebook's rejection test `exclude = (bits - median) / mad_sigma > 10`
applied to one sample `x` of the pixel column `xs`, generalised over the clip
threshold exactly as the spec's `combine(stack, clip_sigma=10.0)` does. -/
def exclude (clip : ℚ) (xs : List ℚ) (x : ℚ) : Bool :=
  floatDivGt (x - npMedian xs) (mad_std xs) clip

/-- A stack of N images, each image its flattened pixel list: the shape
`(N, npixels)` of `bits`. -/
abbrev Stack := List (List ℚ)

/-- The N samples at pixel `p`: the column `bits[:, p]`. -/
def column (stack : Stack) (p : ℕ) : List ℚ := stack.map fun img => img.getD p 0

/-- The sample `bits[n, p]`. -/
def sampleVal (stack : Stack) (n p : ℕ) : ℚ := (stack.getD n []).getD p 0

/-- Entry `(n, p)` of the boolean rejection mask `exclude`. -/
def rejected (clip : ℚ) (stack : Stack) (n p : ℕ) : Bool :=
  exclude clip (column stack p) (sampleVal stack n p)

/-- The samples of a pixel column that survive the clip: exactly the entries
not replaced by the NaN sentinel before `np.nanmean`.  Rejection depends only
on the sample's value, so filtering the column by value coincides with
masking it by the boolean array `exclude`. -/
def survivors (clip : ℚ) (xs : List ℚ) : List ℚ :=
  xs.filter fun x => !exclude clip xs x

/-- `np.nanmean` of a pixel column in which the rejected samples have been set
to NaN: the arithmetic mean of the surviving samples, where `none` models the
NaN that `nanmean` yields on an all-NaN column. -/
def nanmean (clip : ℚ) (xs : List ℚ) : Option ℚ :=
  let s := survivors clip xs
  if s.length = 0 then none else some (s.sum / s.length)

/-- Number of pixels per image. -/
def width (stack : Stack) : ℕ := (stack.headD []).length

/-- The notebook's combined image
`clip_combine = np.nanmean(bits, axis=0)` computed after the rejected entries
of `bits` have been replaced by NaN. -/
def clip_combine (clip : ℚ) (stack : Stack) : List (Option ℚ) :=
  (List.range (width stack)).map fun p => nanmean clip (column stack p)

/-- The error taxonomy of spec §7 for invalid caller-supplied stacks. -/
inductive PreconditionError where
  | EmptyStack
  | ShapeMismatch
deriving DecidableEq

/-- All images of the stack have the same number of pixels. -/
def shapeConsistent (stack : Stack) : Bool :=
  stack.all fun img => img.length = width stack

/-- Modelled from the spec: the notebook computes `clip_combine` directly on
an in-memory array and contains no entry point performing validation; spec
§4.1 and §7 require a `combine(stack, clip_sigma)` operation that fails fast
with a single precondition error — `EmptyStack` for N = 0, `ShapeMismatch`
for differing shapes — before any computation and with no partial output.
The succeeding branch returns the notebook's `clip_combine`. -/
def combine (clip : ℚ) (stack : Stack) : Except PreconditionError (List (Option ℚ)) :=
  if stack.isEmpty then Except.error PreconditionError.EmptyStack
  else if !shapeConsistent stack then Except.error PreconditionError.ShapeMismatch
  else Except.ok (clip_combine clip stack)

/-! ## Basic facts about the robust estimates -/

theorem sortSamples_perm (xs : List ℚ) : List.Perm (sortSamples xs) xs :=
  List.perm_insertionSort _ xs

theorem sortSamples_sorted (xs : List ℚ) : (sortSamples xs).Sorted (· ≤ ·) :=
  List.sorted_insertionSort _ xs

theorem length_sortSamples (xs : List ℚ) : (sortSamples xs).length = xs.length :=
  (sortSamples_perm xs).length_eq

theorem getD_nonneg (s : List ℚ) (i : ℕ) (h : ∀ x ∈ s, 0 ≤ x) : 0 ≤ s.getD i 0 := by
  rcases lt_or_le i s.length with hi | hi
  · rw [List.getD_eq_getElem s 0 hi]
    exact h _ (s.getElem_mem hi)
  · rw [List.getD_eq_default s 0 hi]

theorem npMedian_nonneg (xs : List ℚ) (h : ∀ x ∈ xs, 0 ≤ x) : 0 ≤ npMedian xs := by
  have hs : ∀ x ∈ sortSamples xs, 0 ≤ x := fun x hx => h x ((sortSamples_perm xs).mem_iff.mp hx)
  unfold npMedian
  dsimp only
  split
  · exact getD_nonneg _ _ hs
  · have h1 := getD_nonneg (sortSamples xs) (xs.length / 2 - 1) hs
    have h2 := getD_nonneg (sortSamples xs) (xs.length / 2) hs
    linarith

theorem mad_std_nonneg (xs : List ℚ) : 0 ≤ mad_std xs := by
  unfold mad_std
  have h : 0 ≤ npMedian (xs.map fun x => |x - npMedian xs|) := by
    refine npMedian_nonneg _ ?_
    intro y hy
    rcases List.mem_map.mp hy with ⟨x, _, rfl⟩
    exact abs_nonneg _
  have hf : (0 : ℚ) ≤ madFactor := by norm_num [madFactor]
  exact mul_nonneg h hf

/-- One-sidedness of the clip: a sample at or below the per-pixel median is
never rejected, whatever the (positive) threshold. -/
theorem exclude_eq_false_of_le (clip : ℚ) (xs : List ℚ) (x : ℚ)
    (hclip : 0 < clip) (hx : x ≤ npMedian xs) : exclude clip xs x = false := by
  unfold exclude floatDivGt
  split
  · simp only [decide_eq_false_iff_not, not_lt]
    linarith
  · next hσ =>
    have hσpos : 0 < mad_std xs := lt_of_le_of_ne (mad_std_nonneg xs) (Ne.symm hσ)
    simp only [decide_eq_false_iff_not, not_lt]
    have : (x - npMedian xs) / mad_std xs ≤ 0 :=
      div_nonpos_iff.mpr (Or.inr ⟨by linarith, le_of_lt hσpos⟩)
    linarith

/-- A rejected sample lies strictly above the per-pixel median. -/
theorem gt_median_of_exclude (clip : ℚ) (xs : List ℚ) (x : ℚ)
    (hclip : 0 < clip) (hx : exclude clip xs x = true) : npMedian xs < x := by
  by_contra h
  rw [exclude_eq_false_of_le clip xs x hclip (not_lt.mp h)] at hx
  exact Bool.false_ne_true hx

/-! ## Columns of identical samples -/

theorem sortSamples_replicate (n : ℕ) (v : ℚ) :
    sortSamples (List.replicate n v) = List.replicate n v := by
  refine List.eq_replicate_iff.mpr ⟨?_, ?_⟩
  · rw [length_sortSamples, List.length_replicate]
  · intro b hb
    exact List.eq_of_mem_replicate ((sortSamples_perm _).mem_iff.mp hb)

theorem npMedian_replicate (n : ℕ) (v : ℚ) (hn : 0 < n) :
    npMedian (List.replicate n v) = v := by
  have hget : ∀ i, i < n → (List.replicate n v).getD i 0 = v := by
    intro i hi
    rw [List.getD_eq_getElem _ _ (by simpa using hi), List.getElem_replicate]
  unfold npMedian
  dsimp only
  rw [sortSamples_replicate, List.length_replicate]
  split
  · exact hget _ (Nat.div_lt_self hn (by norm_num))
  · rw [hget _ (lt_of_le_of_lt (Nat.sub_le _ _) (Nat.div_lt_self hn (by norm_num))),
      hget _ (Nat.div_lt_self hn (by norm_num))]
    ring

theorem mad_std_replicate (n : ℕ) (v : ℚ) (hn : 0 < n) :
    mad_std (List.replicate n v) = 0 := by
  unfold mad_std
  rw [npMedian_replicate n v hn, List.map_replicate]
  simp only [sub_self, abs_zero]
  rw [npMedian_replicate n 0 hn, zero_mul]

/-! ## Claim theorems (first group) -/

/-- C1: a sample is marked rejected exactly when
`(sample - median) / mad_sigma > clip_sigma` under the code's float semantics,
with `median` and `mad_sigma` the per-pixel robust estimates; in particular
rejection is one-sided — a sample below the per-pixel median is never
rejected, however far below it lies. -/
theorem rejection_rule (clip : ℚ) (stack : Stack) (n p : ℕ) (hclip : 0 < clip) :
    (rejected clip stack n p = true ↔
      floatDivGt (sampleVal stack n p - npMedian (column stack p))
        (mad_std (column stack p)) clip = true) ∧
    (sampleVal stack n p < npMedian (column stack p) →
      rejected clip stack n p = false) :=
  ⟨Iff.rfl, fun h =>
    exclude_eq_false_of_le clip (column stack p) (sampleVal stack n p) hclip (le_of_lt h)⟩

theorem rejection_rule_witness :
    (rejected 10 [[0], [5], [9]] 0 0 = true ↔
      floatDivGt (sampleVal [[0], [5], [9]] 0 0 - npMedian (column [[0], [5], [9]] 0))
        (mad_std (column [[0], [5], [9]] 0)) 10 = true) ∧
    (sampleVal [[0], [5], [9]] 0 0 < npMedian (column [[0], [5], [9]] 0) →
      rejected 10 [[0], [5], [9]] 0 0 = false) :=
  rejection_rule 10 [[0], [5], [9]] 0 0 (by norm_num)

/-- C4: at a pixel whose samples are all identical the MAD-based scale is
zero and no sample there is rejected, whatever the positive threshold. -/
theorem identical_samples_not_rejected (clip : ℚ) (xs : List ℚ) (v : ℚ)
    (hne : xs ≠ []) (hall : ∀ x ∈ xs, x = v) (hclip : 0 < clip) :
    mad_std xs = 0 ∧ ∀ x ∈ xs, exclude clip xs x = false := by
  have hrep : xs = List.replicate xs.length v := List.eq_replicate_iff.mpr ⟨rfl, hall⟩
  have hn : 0 < xs.length := List.length_pos.mpr hne
  have hσ : mad_std xs = 0 := by
    conv_lhs => rw [hrep]
    exact mad_std_replicate _ _ hn
  have hmed : npMedian xs = v := by
    conv_lhs => rw [hrep]
    exact npMedian_replicate _ _ hn
  refine ⟨hσ, fun x hx => ?_⟩
  rw [hall x hx]
  unfold exclude floatDivGt
  rw [hσ, if_pos rfl, hmed]
  simp

theorem identical_samples_not_rejected_witness :
    mad_std [3, 3] = 0 ∧ ∀ x ∈ ([3, 3] : List ℚ), exclude 10 [3, 3] x = false :=
  identical_samples_not_rejected 10 [3, 3] 3 (by simp)
    (by intro x hx; rcases List.mem_cons.mp hx with h | h <;> simpa using h)
    (by norm_num)

/-- C7: shrinking the clip threshold only grows the rejection set — a sample
rejected at threshold `s2` is also rejected at any positive `s1 ≤ s2`. -/
theorem rejection_monotone (stack : Stack) (s1 s2 : ℚ) (h1 : 0 < s1)
    (h12 : s1 ≤ s2) (n p : ℕ) (h : rejected s2 stack n p = true) :
    rejected s1 stack n p = true := by
  unfold rejected exclude floatDivGt at h ⊢
  split at h
  · next hσ => rw [if_pos hσ]; exact h
  · next hσ =>
    rw [if_neg hσ]
    simp only [decide_eq_true_eq] at h ⊢
    linarith

theorem rejection_monotone_witness : rejected 10 [[0], [0], [100]] 2 0 = true :=
  rejection_monotone [[0], [0], [100]] 10 20 (by norm_num) (by norm_num) 2 0
    (by with_unfolding_all decide)

/-- C10: at a pixel with zero MAD-based scale, every sample strictly above
the median is rejected for every positive threshold, because the unguarded
quotient is the float `+∞`; the spec's zero-scale no-rejection statement is
thus exact only when the samples are all identical. -/
theorem zero_scale_rejects_above (clip : ℚ) (xs : List ℚ) (x : ℚ)
    (hclip : 0 < clip) (hσ : mad_std xs = 0) (hx : npMedian xs < x) :
    exclude clip xs x = true := by
  unfold exclude floatDivGt
  rw [hσ, if_pos rfl]
  simpa using sub_pos.mpr hx

theorem zero_scale_rejects_above_witness : exclude 10 [0, 0, 0, 7] 7 = true :=
  zero_scale_rejects_above 10 [0, 0, 0, 7] 7 (by norm_num)
    (by with_unfolding_all decide) (by with_unfolding_all decide)

/-! ## Uniform stacks -/

theorem exclude_replicate (clip : ℚ) (n : ℕ) (v : ℚ) (hn : 0 < n) :
    exclude clip (List.replicate n v) v = false := by
  unfold exclude floatDivGt
  rw [mad_std_replicate n v hn, if_pos rfl, npMedian_replicate n v hn]
  simp

theorem survivors_replicate (clip : ℚ) (n : ℕ) (v : ℚ) (hn : 0 < n) :
    survivors clip (List.replicate n v) = List.replicate n v := by
  unfold survivors
  refine List.filter_eq_self.mpr fun a ha => ?_
  rw [List.eq_of_mem_replicate ha, exclude_replicate clip n v hn]
  rfl

theorem nanmean_replicate (clip : ℚ) (n : ℕ) (v : ℚ) (hn : 0 < n) :
    nanmean clip (List.replicate n v) = some v := by
  have hn0 : (n : ℚ) ≠ 0 := Nat.cast_ne_zero.mpr hn.ne'
  unfold nanmean
  dsimp only
  rw [survivors_replicate clip n v hn, List.length_replicate, if_neg hn.ne',
    List.sum_replicate, nsmul_eq_mul]
  congr 1
  field_simp

/-- C5: a stack of N ≥ 1 identical images combines to that same image: the
median equals every sample, nothing is rejected, and the average of the
surviving samples reproduces the input exactly. -/
theorem uniform_stack_identity (clip : ℚ) (img : List ℚ) (N : ℕ) (hN : 1 ≤ N) :
    clip_combine clip (List.replicate N img) = img.map some := by
  have hw : width (List.replicate N img) = img.length := by
    cases N with
    | zero => omega
    | succ m => rfl
  have hcol : ∀ p, column (List.replicate N img) p = List.replicate N (img.getD p 0) := by
    intro p
    unfold column
    rw [List.map_replicate]
  unfold clip_combine
  rw [hw]
  refine List.ext_getElem (by simp) ?_
  intro i h1 h2
  simp only [List.getElem_map, List.getElem_range]
  rw [hcol, nanmean_replicate clip N _ hN,
    List.getD_eq_getElem _ _ (by simpa using h2)]

theorem uniform_stack_identity_witness :
    clip_combine 10 (List.replicate 3 [1, 2]) = List.map some [1, 2] :=
  uniform_stack_identity 10 [1, 2] 3 (by norm_num)

/-! ## The concrete outlier stack of spec §8 -/

/-- Twenty constant images of value 100, with pixel 0 of image 0 set to
10000: the outlier-rejection test stack of spec §8. -/
def outlierStack : Stack := [10000, 100, 100, 100] :: List.replicate 19 [100, 100, 100, 100]

/-- C6: on the 20-image constant-100 stack with one sample pushed to 10000,
the outlying sample is rejected by the MAD-based threshold and the combined
image is exactly 100 everywhere, not skewed toward 10000. -/
theorem outlier_rejected_combined :
    rejected 10 outlierStack 0 0 = true ∧
    clip_combine 10 outlierStack = [some 100, some 100, some 100, some 100] := by
  constructor
  · with_unfolding_all decide
  · with_unfolding_all decide

/-! ## Precondition validation (modelled from the spec) -/

/-- C3: `combine` fails fast with the single precondition error `EmptyStack`
on an empty stack and `ShapeMismatch` on a stack of differing shapes, and
produces a combined image only when the stack is nonempty and
shape-consistent. -/
theorem combine_precondition_errors :
    (∀ clip : ℚ, combine clip [] = Except.error PreconditionError.EmptyStack) ∧
    (∀ (clip : ℚ) (stack : Stack), stack ≠ [] → shapeConsistent stack = false →
      combine clip stack = Except.error PreconditionError.ShapeMismatch) ∧
    (∀ (clip : ℚ) (stack : Stack) (out : List (Option ℚ)),
      combine clip stack = Except.ok out →
      stack ≠ [] ∧ shapeConsistent stack = true ∧ out = clip_combine clip stack) := by
  refine ⟨fun clip => rfl, ?_, ?_⟩
  · intro clip stack hne hbad
    unfold combine
    rw [if_neg (by simpa using hne), hbad]
    rfl
  · intro clip stack out h
    unfold combine at h
    split at h
    · exact absurd h (by simp)
    · next hne =>
      split at h
      · exact absurd h (by simp)
      · next hsh =>
        refine ⟨by simpa using hne, by simpa using hsh, ?_⟩
        simpa using h.symm

/-! ## At least half of every pixel column survives the clip -/

/-- The lower middle element of the sorted column is at most the median. -/
theorem le_median_getD (xs : List ℚ) (hne : xs ≠ []) :
    (sortSamples xs).getD ((xs.length - 1) / 2) 0 ≤ npMedian xs := by
  have hlen : (sortSamples xs).length = xs.length := length_sortSamples xs
  have hn : 0 < xs.length := List.length_pos.mpr hne
  unfold npMedian
  dsimp only
  split
  · next hodd =>
    have h : (xs.length - 1) / 2 = xs.length / 2 := by omega
    rw [h]
  · next heven =>
    have hk : (xs.length - 1) / 2 = xs.length / 2 - 1 := by omega
    have h1 : xs.length / 2 - 1 < (sortSamples xs).length := by omega
    have h2 : xs.length / 2 < (sortSamples xs).length := by omega
    rw [hk, List.getD_eq_getElem _ _ h1, List.getD_eq_getElem _ _ h2]
    have hle := (sortSamples_sorted xs).rel_get_of_le
      (a := ⟨xs.length / 2 - 1, h1⟩) (b := ⟨xs.length / 2, h2⟩)
      (Fin.mk_le_mk.mpr (Nat.sub_le _ _))
    rw [List.get_eq_getElem, List.get_eq_getElem] at hle
    linarith

/-- At least `⌈N/2⌉` of the N samples of a column are at most the median. -/
theorem count_le_median (xs : List ℚ) (hne : xs ≠ []) :
    (xs.length + 1) / 2 ≤ xs.countP fun x => decide (x ≤ npMedian xs) := by
  have hn : 0 < xs.length := List.length_pos.mpr hne
  have hlen : (sortSamples xs).length = xs.length := length_sortSamples xs
  have hk : (xs.length - 1) / 2 < xs.length := by omega
  have hmed := le_median_getD xs hne
  have htake : ∀ x ∈ (sortSamples xs).take ((xs.length - 1) / 2 + 1),
      decide (x ≤ npMedian xs) = true := by
    intro x hx
    rcases List.mem_iff_getElem.mp hx with ⟨i, hi, hxi⟩
    have hit : i < ((sortSamples xs).take ((xs.length - 1) / 2 + 1)).length := hi
    have hik : i ≤ (xs.length - 1) / 2 := by
      have := List.length_take ((xs.length - 1) / 2 + 1) (sortSamples xs)
      omega
    have hi' : i < (sortSamples xs).length := by omega
    have hk' : (xs.length - 1) / 2 < (sortSamples xs).length := by omega
    have hle := (sortSamples_sorted xs).rel_get_of_le
      (a := ⟨i, hi'⟩) (b := ⟨(xs.length - 1) / 2, hk'⟩) (Fin.mk_le_mk.mpr hik)
    rw [List.get_eq_getElem, List.get_eq_getElem] at hle
    rw [← hxi, List.getElem_take]
    rw [List.getD_eq_getElem _ _ hk'] at hmed
    simp only [decide_eq_true_eq]
    exact le_trans hle hmed
  have hperm : xs.countP (fun x => decide (x ≤ npMedian xs)) =
      (sortSamples xs).countP (fun x => decide (x ≤ npMedian xs)) :=
    ((sortSamples_perm xs).countP_eq _).symm
  have hsplit : (sortSamples xs).countP (fun x => decide (x ≤ npMedian xs)) =
      ((sortSamples xs).take ((xs.length - 1) / 2 + 1)).countP
          (fun x => decide (x ≤ npMedian xs)) +
        ((sortSamples xs).drop ((xs.length - 1) / 2 + 1)).countP
          (fun x => decide (x ≤ npMedian xs)) := by
    conv_lhs => rw [← List.take_append_drop ((xs.length - 1) / 2 + 1) (sortSamples xs)]
    rw [List.countP_append]
  have hfull : ((sortSamples xs).take ((xs.length - 1) / 2 + 1)).countP
      (fun x => decide (x ≤ npMedian xs)) =
      ((sortSamples xs).take ((xs.length - 1) / 2 + 1)).length :=
    List.countP_eq_length.mpr htake
  have hlen_take : ((sortSamples xs).take ((xs.length - 1) / 2 + 1)).length =
      (xs.length - 1) / 2 + 1 := by
    rw [List.length_take]
    omega
  omega

/-- At least `⌈N/2⌉` samples of every nonempty column survive the clip. -/
theorem survivors_length_ge (clip : ℚ) (xs : List ℚ) (hclip : 0 < clip)
    (hne : xs ≠ []) : (xs.length + 1) / 2 ≤ (survivors clip xs).length := by
  unfold survivors
  rw [← List.countP_eq_length_filter]
  refine le_trans (count_le_median xs hne) (List.countP_mono_left ?_)
  intro x hx h
  simp only [decide_eq_true_eq] at h
  rw [exclude_eq_false_of_le clip xs x hclip h]
  rfl

/-- The all-rejected pixel never occurs: some sample always survives. -/
theorem survivors_ne_nil (clip : ℚ) (xs : List ℚ) (hclip : 0 < clip)
    (hne : xs ≠ []) : survivors clip xs ≠ [] := by
  have h := survivors_length_ge clip xs hclip hne
  have hn : 0 < xs.length := List.length_pos.mpr hne
  intro hcon
  rw [hcon] at h
  simp only [List.length_nil] at h
  omega

theorem column_ne_nil (stack : Stack) (p : ℕ) (hne : stack ≠ []) :
    column stack p ≠ [] := by
  unfold column
  simpa using hne

/-- C2: on a valid stack the combined image is defined at every pixel — no
NaN entries appear in the result — and at a pixel where every sample were
rejected the result would be the unclipped mean of all samples (a case that
in fact never arises, so the conditional holds). -/
theorem clip_combine_total (clip : ℚ) (stack : Stack) (hne : stack ≠ [])
    (hsh : shapeConsistent stack = true) (hclip : 0 < clip) :
    (∀ o ∈ clip_combine clip stack, ∃ v : ℚ, o = some v) ∧
    (∀ p, p < width stack →
      (∀ x ∈ column stack p, exclude clip (column stack p) x = true) →
      (clip_combine clip stack).getD p none =
        some ((column stack p).sum / (column stack p).length)) := by
  constructor
  · intro o ho
    rcases List.mem_map.mp ho with ⟨p, _, rfl⟩
    unfold nanmean
    dsimp only
    rw [if_neg fun h => survivors_ne_nil clip (column stack p) hclip
      (column_ne_nil stack p hne) (List.length_eq_zero.mp h)]
    exact ⟨_, rfl⟩
  · intro p _ hall
    exfalso
    refine survivors_ne_nil clip (column stack p) hclip (column_ne_nil stack p hne) ?_
    unfold survivors
    refine List.filter_eq_nil_iff.mpr fun a ha => ?_
    rw [hall a ha]
    simp

theorem clip_combine_total_witness :
    (∀ o ∈ clip_combine 10 [[1, 2], [3, 4]], ∃ v : ℚ, o = some v) ∧
    (∀ p, p < width [[1, 2], [3, 4]] →
      (∀ x ∈ column [[1, 2], [3, 4]] p, exclude 10 (column [[1, 2], [3, 4]] p) x = true) →
      (clip_combine 10 [[1, 2], [3, 4]]).getD p none =
        some ((column [[1, 2], [3, 4]] p).sum / (column [[1, 2], [3, 4]] p).length)) :=
  clip_combine_total 10 [[1, 2], [3, 4]] (by simp) (by with_unfolding_all decide)
    (by norm_num)

/-- C9 counterexample: on the two-image stack `[[0], [2]]` the per-pixel
median is 1 and no sample attains it, so no surviving sample attains the
median — the claim's parenthetical fails for even N. -/
theorem median_not_among_survivors :
    npMedian (column [[0], [2]] 0) ∉ survivors 10 (column [[0], [2]] 0) := by
  with_unfolding_all decide

/-- C9 (amended): a sample at or below the per-pixel median is never
rejected; hence at least `⌈N/2⌉` samples — among them one at most the median
— survive at every pixel, and the all-rejected case can never occur for
finite inputs, making the unclipped-mean fallback unreachable. -/
theorem half_samples_survive (clip : ℚ) (stack : Stack) (p : ℕ)
    (hclip : 0 < clip) (hne : stack ≠ []) :
    (∀ x ∈ column stack p, x ≤ npMedian (column stack p) →
      exclude clip (column stack p) x = false) ∧
    (stack.length + 1) / 2 ≤ (survivors clip (column stack p)).length ∧
    survivors clip (column stack p) ≠ [] := by
  have hcol := column_ne_nil stack p hne
  have hlen : (column stack p).length = stack.length := by
    unfold column
    simp
  refine ⟨fun x _ hle => exclude_eq_false_of_le clip _ x hclip hle, ?_,
    survivors_ne_nil clip _ hclip hcol⟩
  rw [← hlen]
  exact survivors_length_ge clip _ hclip hcol

theorem half_samples_survive_witness :
    (∀ x ∈ column [[0], [2]] 0, x ≤ npMedian (column [[0], [2]] 0) →
      exclude 10 (column [[0], [2]] 0) x = false) ∧
    (([[0], [2]] : Stack).length + 1) / 2 ≤ (survivors 10 (column [[0], [2]] 0)).length ∧
    survivors 10 (column [[0], [2]] 0) ≠ [] :=
  half_samples_survive 10 [[0], [2]] 0 (by norm_num) (by simp)

theorem combine_precondition_errors_witness :
    combine 10 [] = Except.error PreconditionError.EmptyStack ∧
    combine 10 [[1, 2], [3]] = Except.error PreconditionError.ShapeMismatch :=
  ⟨combine_precondition_errors.1 10,
   combine_precondition_errors.2.1 10 [[1, 2], [3]] (by simp)
     (by with_unfolding_all decide)⟩

/-! ## The NaN-substitute / restore discipline on the mutable buffer (C8)

The notebook mutates `bits` in place: it saves `original_values =
bits[exclude]`, overwrites those entries with NaN, takes `np.nanmean`, and
writes the saved values back.  NumPy fancy indexing reads and writes the
flagged entries in row-major array order, which the following functions model
row by row, threading the saved values through the images in order. -/

/-- The rejection-mask row of one image, by pixel index. -/
def imageMask (clip : ℚ) (stack : Stack) (img : List ℚ) : List Bool :=
  (List.range img.length).map fun p => exclude clip (column stack p) (img.getD p 0)

/-- `bits[exclude] = np.nan` on one image row: flagged entries are
overwritten with the NaN sentinel `none`. -/
def substRow : List ℚ → List Bool → List (Option ℚ)
  | v :: vs, b :: bs => (if b then none else some v) :: substRow vs bs
  | _, _ => []

/-- `original_values = bits[exclude]` on one image row: the flagged entries,
read out in array order before they are overwritten. -/
def gatherRow : List ℚ → List Bool → List ℚ
  | v :: vs, b :: bs => (if b then [v] else []) ++ gatherRow vs bs
  | _, _ => []

/-- `bits[exclude] = original_values` on one image row: saved values are
written back at the sentinel positions in array order, the other pixels keep
their value.  Returns the restored row and the saved values left over for
the following rows (sentinels beyond the saved values keep the default 0; the
restoration theorem shows this case never arises). -/
def restoreRow : List (Option ℚ) → List ℚ → List ℚ × List ℚ
  | some v :: buf, saved =>
    let r := restoreRow buf saved
    (v :: r.1, r.2)
  | none :: buf, s :: saved =>
    let r := restoreRow buf saved
    (s :: r.1, r.2)
  | none :: buf, [] =>
    let r := restoreRow buf []
    (0 :: r.1, r.2)
  | [], saved => ([], saved)

/-- The buffer `bits` after `bits[exclude] = np.nan`, row by row. -/
def substStack (clip : ℚ) (stack : Stack) : List (List (Option ℚ)) :=
  stack.map fun img => substRow img (imageMask clip stack img)

/-- `original_values`, gathered across the stack in array order. -/
def originalValues (clip : ℚ) (stack : Stack) : List ℚ :=
  (stack.map fun img => gatherRow img (imageMask clip stack img)).flatten

/-- The stack after the final restoring write
`bits[exclude] = original_values`. -/
def restoreStack : List (List (Option ℚ)) → List ℚ → Stack
  | [], _ => []
  | row :: rows, saved =>
    let r := restoreRow row saved
    r.1 :: restoreStack rows r.2

theorem restoreRow_substRow (vs : List ℚ) (bs : List Bool) (tail : List ℚ)
    (hlen : bs.length = vs.length) :
    restoreRow (substRow vs bs) (gatherRow vs bs ++ tail) = (vs, tail) := by
  induction vs generalizing bs tail with
  | nil =>
    cases bs with
    | nil => rfl
    | cons b bs => simp at hlen
  | cons v vs ih =>
    cases bs with
    | nil => simp at hlen
    | cons b bs =>
      have hlen' : bs.length = vs.length := by simpa using hlen
      cases b with
      | false => simp [substRow, gatherRow, restoreRow, ih bs tail hlen']
      | true => simp [substRow, gatherRow, restoreRow, ih bs tail hlen']

theorem restoreStack_general (mk : List ℚ → List Bool)
    (hmk : ∀ img, (mk img).length = img.length)
    (rows : List (List ℚ)) (tail : List ℚ) :
    restoreStack (rows.map fun img => substRow img (mk img))
      ((rows.map fun img => gatherRow img (mk img)).flatten ++ tail) = rows := by
  induction rows generalizing tail with
  | nil => rfl
  | cons img rows ih =>
    simp only [List.map_cons, List.flatten_cons, restoreStack, List.append_assoc]
    rw [restoreRow_substRow img (mk img) _ (hmk img)]
    exact congrArg _ (ih _)

/-- `np.nanmean` over one column of the sentinel buffer: the mean of the
non-NaN entries, NaN (`none`) when there are none. -/
def nanmeanBuf (col : List (Option ℚ)) : Option ℚ :=
  let s := col.filterMap id
  if s.length = 0 then none else some (s.sum / s.length)

theorem getD_substRow (vs : List ℚ) (bs : List Bool) (p : ℕ)
    (hlen : bs.length = vs.length) (hp : p < vs.length) :
    (substRow vs bs).getD p (some 0) =
      if bs.getD p false then none else some (vs.getD p 0) := by
  induction vs generalizing bs p with
  | nil => simp at hp
  | cons v vs ih =>
    cases bs with
    | nil => simp at hlen
    | cons b bs =>
      cases p with
      | zero => simp [substRow]
      | succ p =>
        have hlen' : bs.length = vs.length := by simpa using hlen
        have hp' : p < vs.length := by simpa using hp
        simpa [substRow] using ih bs p hlen' hp'

theorem getD_imageMask (clip : ℚ) (stack : Stack) (img : List ℚ) (p : ℕ)
    (hp : p < img.length) :
    (imageMask clip stack img).getD p false =
      exclude clip (column stack p) (img.getD p 0) := by
  unfold imageMask
  rw [List.getD_eq_getElem _ _ (by simpa using hp)]
  simp

/-- The non-NaN entries of column `p` of the sentinel buffer are exactly the
surviving samples of pixel `p`, in stack order: masking by the boolean array
`exclude` and filtering the column by value coincide. -/
theorem substStack_column (clip : ℚ) (stack : Stack) (p : ℕ)
    (hsh : shapeConsistent stack = true) (hp : p < width stack) :
    ((substStack clip stack).map fun row => row.getD p (some 0)).filterMap id =
      survivors clip (column stack p) := by
  have hW : ∀ img ∈ stack, img.length = width stack :=
    fun img h => by simpa using List.all_eq_true.mp hsh img h
  unfold substStack survivors
  have key : ∀ rows : List (List ℚ), (∀ img ∈ rows, img.length = width stack) →
      ((rows.map fun img => substRow img (imageMask clip stack img)).map
          fun row => row.getD p (some 0)).filterMap id =
        (rows.map fun img => img.getD p 0).filter
          fun x => !exclude clip (column stack p) x := by
    intro rows hrows
    induction rows with
    | nil => rfl
    | cons img rows ih =>
      have himg : img.length = width stack := hrows img (List.mem_cons_self _ _)
      have hp' : p < img.length := himg ▸ hp
      have hmask : (imageMask clip stack img).length = img.length := by
        simp [imageMask]
      simp only [List.map_cons, List.filterMap_cons, List.filter_cons]
      rw [getD_substRow img _ p hmask hp', getD_imageMask clip stack img p hp']
      cases hx : exclude clip (column stack p) (img.getD p 0) with
      | false =>
        simp only [if_neg Bool.false_ne_true, Bool.not_false, if_pos rfl]
        exact congrArg _ (ih fun i h => hrows i (List.mem_cons_of_mem _ h))
      | true =>
        simp only [if_pos rfl, Bool.not_true, Bool.false_eq_true, if_neg]
        exact ih fun i h => hrows i (List.mem_cons_of_mem _ h)
  exact key stack hW

/-- Per pixel, `np.nanmean` of the sentinel buffer is the `nanmean` used in
`clip_combine`: the two routes to the clipped mean agree. -/
theorem nanmeanBuf_eq_nanmean (clip : ℚ) (stack : Stack) (p : ℕ)
    (hsh : shapeConsistent stack = true) (hp : p < width stack) :
    nanmeanBuf ((substStack clip stack).map fun row => row.getD p (some 0)) =
      nanmean clip (column stack p) := by
  unfold nanmeanBuf nanmean
  rw [substStack_column clip stack p hsh hp]

/-- C8: the combination leaves the input stack exactly as it was — after the
sentinel write `bits[exclude] = np.nan` and the restoring write
`bits[exclude] = original_values`, every image of the stack holds exactly the
values it held before the call, for every stack and threshold.  The combined
image `clip_combine` is a separately constructed value, so no input buffer is
reused for the output. -/
theorem combine_restores_stack (clip : ℚ) (stack : Stack) :
    restoreStack (substStack clip stack) (originalValues clip stack) = stack := by
  have h := restoreStack_general (fun img => imageMask clip stack img)
    (fun img => by simp [imageMask]) stack []
  rw [List.append_nil] at h
  exact h

end RobustStack
